import Mathlib

/-!
Verification development for the semantic clustering / harmonization engine of
the compliance-requirement backend (`app/api/parser/semantic_clustering_engine.py`,
data shapes from `app/api/parser/models_v3.py`).

The Python code is embedded shallowly: Python lists become `List`, optional
strings become `Option String`, floats become `Rat`, and the external
numeric libraries (sentence-transformer embedding, DBSCAN, KMeans, cosine
similarity) are abstracted as an `Oracles` record of functions, since their
implementations live outside this repository; everything the repository itself
computes (text preparation, clustering-label dispatch, cluster construction,
cluster naming, and all per-field harmonization rules) is translated directly.

Python idioms are modelled precisely:
* `max(xs, key=f)` / `min(xs, key=f)` keep the first element attaining the
  extremum (`foldMaxBy` / `foldMinBy`);
* `dict` / `defaultdict` iteration order is key-insertion order, and a dict
  comprehension keeps the last value written for a key (`dictIncr`,
  `groupAppend`, `dictInsert`);
* truthiness filters (`if req.deadline`) drop both `None` and `""`
  (`truthyStrings`).
-/

namespace SecCompliance

/-- Mapped organizational control (`MappedControl` in `models_v3.py`).
The enum-valued fields are modelled as strings. -/
structure MappedControl where
  control_id : String
  category : String
  status : String
  description : Option String := none
  responsible_party : Option String := none
deriving DecidableEq, Repr

/-- Compliance requirement record (`ComplianceRequirement` in `models_v3.py`).
`confidence_score` (a Python float) is modelled as a rational. -/
structure ComplianceRequirement where
  policy : String
  actor : String
  requirement : String
  trigger : String
  deadline : Option String := none
  penalty : Option String := none
  mapped_controls : List MappedControl := []
  confidence_score : Rat := 0
  source_text : Option String := none
  regulatory_framework : Option String := none
  risk_level : Option String := none
  business_impact : Option String := none
deriving DecidableEq, Repr

/-- Semantic cluster (`SemanticCluster` in `models_v3.py`). -/
structure SemanticCluster where
  cluster_id : String
  cluster_name : String
  requirements : List ComplianceRequirement
  similarity_score : Rat
  harmonized_requirement : Option ComplianceRequirement := none
deriving DecidableEq, Repr

/-- Harmonization report (`HarmonizationResponse` in `models_v3.py`). -/
structure HarmonizationResponse where
  original_requirements : List ComplianceRequirement
  clusters : List SemanticCluster
  harmonized_requirements : List ComplianceRequirement
  total_clusters : Nat
  harmonization_ratio : Rat
deriving DecidableEq, Repr

/-- Whether `pat` occurs as a contiguous segment of the character list. -/
def containsSeg (pat : List Char) : List Char → Bool
  | [] => pat.isEmpty
  | c :: rest => List.isPrefixOf pat (c :: rest) || containsSeg pat rest

/-- Python's `pat in s` for strings: contiguous substring test. -/
def strContains (s pat : String) : Bool :=
  containsSeg pat.data s.data

/-- Python truthiness filter over optional strings, as in
`[req.deadline for req in requirements if req.deadline]`: drops `None` and `""`. -/
def truthyStrings (l : List (Option String)) : List String :=
  (l.filterMap id).filter (fun s => s ≠ "")

/-- Python `min(a :: l, key=key)`: the first element of `a :: l` attaining the
minimal key (a later element replaces the current best only when strictly
smaller). -/
def foldMinBy {α : Type} (key : α → Nat) (a : α) (l : List α) : α :=
  l.foldl (fun best x => if key x < key best then x else best) a

/-- Python `max(a :: l, key=key)`: the first element of `a :: l` attaining the
maximal key (a later element replaces the current best only when strictly
greater). -/
def foldMaxBy {α : Type} (key : α → Nat) (a : α) (l : List α) : α :=
  l.foldl (fun best x => if key best < key x then x else best) a

/-- `defaultdict(int)` bump `d[k] += 1`, preserving key-insertion order. -/
def dictIncr (d : List (String × Nat)) (k : String) : List (String × Nat) :=
  match d with
  | [] => [(k, 1)]
  | (k', v) :: rest =>
    if k' = k then (k', v + 1) :: rest else (k', v) :: dictIncr rest k

/-- Python `max(d, key=d.get)` over a counts dict: the first key (in insertion
order) attaining the maximal count; `""` on the empty dict (where Python's
`max` would raise, a case the engine never reaches). -/
def dictArgmax (d : List (String × Nat)) : String :=
  match d with
  | [] => ""
  | kv :: rest => (foldMaxBy (fun p => p.2) kv rest).1

/-- The first maximal run of decimal digits of `s`, as `re.search(r'\d+', s)`
finds it; `none` when `s` has no digit. -/
def firstDigitRun (l : List Char) : Option (List Char) :=
  match l with
  | [] => none
  | c :: cs =>
    if c.isDigit then some (c :: cs.takeWhile Char.isDigit) else firstDigitRun cs

/-- Decimal value of a digit run (`int(...)` on the matched group). -/
def digitsToNat (ds : List Char) : Nat :=
  ds.foldl (fun n c => 10 * n + (c.toNat - 48)) 0

/-- `int(re.search(r'\d+', s).group())` when a digit run exists. -/
def firstNumber (s : String) : Option Nat :=
  (firstDigitRun s.data).map digitsToNat

/-- `_harmonize_policy`: first policy mentioning a `Section` or `Rule`
citation, else the first policy. -/
def harmonize_policy (policies : List String) : String :=
  match policies with
  | [] => "General Compliance Requirement"
  | p0 :: _ =>
    match policies.filter (fun p => strContains p "Section" || strContains p "Rule") with
    | [] => p0
    | p :: _ => p

/-- `_harmonize_actor`: first actor longer than 20 characters, else the first
actor. -/
def harmonize_actor (actors : List String) : String :=
  match actors with
  | [] => "Covered Entity"
  | a0 :: _ =>
    match actors.filter (fun a => 20 < a.length) with
    | [] => a0
    | a :: _ => a

/-- `_harmonize_requirement_text`: the longest requirement text (first one on
ties, as Python's `max`). -/
def harmonize_requirement_text (req_texts : List String) : String :=
  match req_texts with
  | [] => "Compliance requirement"
  | t :: rest => foldMaxBy String.length t rest

/-- `_harmonize_trigger`: first trigger containing `within` or `immediately`
(case-insensitively), else the first trigger. -/
def harmonize_trigger (triggers : List String) : String :=
  match triggers with
  | [] => "Upon occurrence of triggering event"
  | t0 :: _ =>
    match triggers.filter
        (fun t => strContains t.toLower "within" || strContains t.toLower "immediately") with
    | [] => t0
    | t :: _ => t

/-- `_harmonize_deadline`: first deadline containing `immediately`
(case-insensitively); else the deadline with the numerically smallest first
number among those containing a number; else the first deadline; `none` on the
empty list. -/
def harmonize_deadline (deadlines : List String) : Option String :=
  match deadlines with
  | [] => none
  | d0 :: _ =>
    match deadlines.filter (fun d => strContains d.toLower "immediately") with
    | r :: _ => some r
    | [] =>
      match deadlines.filter (fun d => (firstNumber d).isSome) with
      | [] => some d0
      | t :: ts => some (foldMinBy (fun d => (firstNumber d).getD 0) t ts)

/-- Python `sep.join(parts)`. -/
def joinSep (sep : String) : List String → String
  | [] => ""
  | [p] => p
  | p :: q :: rest => p ++ sep ++ joinSep sep (q :: rest)

/-- `_harmonize_penalty`: `"; "`-join of all penalties; `none` on the empty
list. -/
def harmonize_penalty (penalties : List String) : Option String :=
  match penalties with
  | [] => none
  | _ => some (joinSep "; " penalties)

/-- `_identify_common_framework`: most frequent truthy framework (first one on
ties, per `Counter.most_common`); `none` when none is present. -/
def identify_common_framework (reqs : List ComplianceRequirement) : Option String :=
  match truthyStrings (reqs.map (fun r => r.regulatory_framework)) with
  | [] => none
  | fs => some (dictArgmax (fs.foldl dictIncr []))

/-- The `risk_priority` / `impact_priority` dict with `.get(x, 2)` default. -/
def risk_priority (s : String) : Nat :=
  if s = "High" then 3 else if s = "Medium" then 2 else if s = "Low" then 1 else 2

/-- Shared body of `_assess_harmonized_risk` / `_assess_harmonized_impact`:
`max(levels, key=priority.get)` with Python `max` tie-breaking, `"Medium"` on
the empty list (where the code short-circuits). -/
def max_priority_level (levels : List String) : String :=
  match levels with
  | [] => "Medium"
  | l :: ls => foldMaxBy risk_priority l ls

/-- `_assess_harmonized_risk`: member risk level of highest priority (first on
ties); `"Medium"` when no member has a truthy risk level. -/
def assess_harmonized_risk (reqs : List ComplianceRequirement) : String :=
  max_priority_level (truthyStrings (reqs.map (fun r => r.risk_level)))

/-- `_assess_harmonized_impact`: member business impact of highest priority
(first on ties); `"Medium"` when no member has a truthy business impact. -/
def assess_harmonized_impact (reqs : List ComplianceRequirement) : String :=
  max_priority_level (truthyStrings (reqs.map (fun r => r.business_impact)))

/-- One step of the dict comprehension
`{control.control_id: control for control in all_controls}`: an existing key
keeps its position but its value is overwritten; a new key is appended. -/
def dictInsert (d : List (String × MappedControl)) (c : MappedControl) :
    List (String × MappedControl) :=
  match d with
  | [] => [(c.control_id, c)]
  | (k, v) :: rest =>
    if k = c.control_id then (k, c) :: rest else (k, v) :: dictInsert rest c

/-- The whole dict comprehension, folded left over the concatenated controls. -/
def buildControlDict (cs : List MappedControl) : List (String × MappedControl) :=
  cs.foldl dictInsert []

/-- `list({control.control_id: control for control in all_controls}.values())`. -/
def unique_controls (cs : List MappedControl) : List MappedControl :=
  (buildControlDict cs).map (fun e => e.2)

/-- Body of the multi-member branch of `_create_harmonized_requirement`. -/
def merge_cluster (reqs : List ComplianceRequirement) : ComplianceRequirement :=
  { policy := harmonize_policy (reqs.map (fun r => r.policy))
    actor := harmonize_actor (reqs.map (fun r => r.actor))
    requirement := harmonize_requirement_text (reqs.map (fun r => r.requirement))
    trigger := harmonize_trigger (reqs.map (fun r => r.trigger))
    deadline := harmonize_deadline (truthyStrings (reqs.map (fun r => r.deadline)))
    penalty := harmonize_penalty (truthyStrings (reqs.map (fun r => r.penalty)))
    mapped_controls := unique_controls (reqs.flatMap (fun r => r.mapped_controls))
    confidence_score := (reqs.map (fun r => r.confidence_score)).sum / (reqs.length : Rat)
    source_text := some ("Harmonized from " ++ toString reqs.length ++ " requirements")
    regulatory_framework := identify_common_framework reqs
    risk_level := some (assess_harmonized_risk reqs)
    business_impact := some (assess_harmonized_impact reqs) }

/-- `_create_harmonized_requirement`: `none` on an empty cluster, the member
itself on a singleton cluster, the per-field merge otherwise. -/
def create_harmonized_requirement :
    List ComplianceRequirement → Option ComplianceRequirement
  | [] => none
  | [r] => some r
  | r0 :: r1 :: rest => some (merge_cluster (r0 :: r1 :: rest))

/-- The external numeric collaborators of the engine, abstracted as functions:
the sentence-transformer / TF-IDF embedding (`_generate_embeddings`), the two
`sklearn` clustering algorithms, and the mean pairwise cosine similarity of a
cluster's rows (`cosine_similarity` + the masked mean in
`_calculate_cluster_similarity`). -/
structure Oracles where
  embed : List String → List (List Rat)
  dbscan : List (List Rat) → List Int
  kmeans : Nat → List (List Rat) → List Int
  cosineMean : List (List Rat) → List Nat → Rat

/-- Library contracts the external collaborators satisfy: one output row /
label per input row. -/
def Oracles.Wf (O : Oracles) : Prop :=
  (∀ ts, (O.embed ts).length = ts.length) ∧
  (∀ e, (O.dbscan e).length = e.length) ∧
  (∀ k e, (O.kmeans k e).length = e.length)

/-- Clustering parameter `self.min_cluster_size`. -/
def min_cluster_size : Nat := 2

/-- Clustering parameter `self.max_clusters`. -/
def max_clusters : Nat := 20

/-- `_prepare_texts_for_clustering` for one requirement: join the truthy
fields of `[policy, actor, requirement, trigger]` with single spaces. -/
def prepare_text (r : ComplianceRequirement) : String :=
  String.intercalate " "
    (([r.policy, r.actor, r.requirement, r.trigger]).filter (fun s => s ≠ ""))

/-- `_prepare_texts_for_clustering`. -/
def prepare_texts (reqs : List ComplianceRequirement) : List String :=
  reqs.map prepare_text

/-- `_perform_clustering`: fewer than two rows are all labelled `0`; otherwise
run DBSCAN, and when the set of its labels (noise label `-1` included) has at
most one element, fall back to KMeans with
`n_clusters = min(len(embeddings) // 2, max_clusters)` provided that count
exceeds one. -/
def perform_clustering (O : Oracles) (embeddings : List (List Rat)) : List Int :=
  if embeddings.length < 2 then
    List.replicate embeddings.length 0
  else if (O.dbscan embeddings).dedup.length ≤ 1 then
    if 1 < min (embeddings.length / 2) max_clusters then
      O.kmeans (min (embeddings.length / 2) max_clusters) embeddings
    else O.dbscan embeddings
  else O.dbscan embeddings

/-- `defaultdict(list)` append `d[k].append(v)`, preserving key-insertion
order. -/
def groupAppend (d : List (Int × List (Nat × ComplianceRequirement)))
    (k : Int) (v : Nat × ComplianceRequirement) :
    List (Int × List (Nat × ComplianceRequirement)) :=
  match d with
  | [] => [(k, [v])]
  | (k', vs) :: rest =>
    if k' = k then (k', vs ++ [v]) :: rest else (k', vs) :: groupAppend rest k v

/-- The `cluster_dict` of `_create_clusters`: group `(index, requirement)`
pairs by label, keys in first-occurrence order, each group in index order. -/
def cluster_dict (labels : List Int) (reqs : List ComplianceRequirement) :
    List (Int × List (Nat × ComplianceRequirement)) :=
  (labels.zip reqs).enum.foldl (fun d p => groupAppend d p.2.1 (p.1, p.2.2)) []

/-- `_generate_cluster_name`: majority keyword buckets over policy, actor and
requirement text, each axis decided by `max(counts, key=counts.get)`. -/
def generate_cluster_name (reqs : List ComplianceRequirement) : String :=
  match reqs with
  | [] => "Unknown Cluster"
  | _ =>
    let policy_counts := reqs.foldl (fun d r =>
      if strContains r.policy "Securities Exchange Act" then dictIncr d "SEC"
      else if strContains r.policy "Sarbanes-Oxley" || strContains r.policy "SOX" then
        dictIncr d "SOX"
      else if strContains r.policy "Dodd-Frank" then dictIncr d "Dodd-Frank"
      else dictIncr d "Other") []
    let actor_counts := reqs.foldl (fun d r =>
      if strContains r.actor.toLower "beneficial owner" then dictIncr d "Beneficial Owners"
      else if strContains r.actor.toLower "executive" then dictIncr d "Executive Officers"
      else if strContains r.actor.toLower "director" then dictIncr d "Directors"
      else if strContains r.actor.toLower "registrant" then dictIncr d "Registrants"
      else dictIncr d "Other") []
    let req_counts := reqs.foldl (fun d r =>
      if strContains r.requirement.toLower "report" then dictIncr d "Reporting"
      else if strContains r.requirement.toLower "disclose" then dictIncr d "Disclosure"
      else if strContains r.requirement.toLower "file" then dictIncr d "Filing"
      else if strContains r.requirement.toLower "maintain" then dictIncr d "Maintenance"
      else dictIncr d "Other") []
    dictArgmax policy_counts ++ " - " ++ dictArgmax actor_counts ++ " - " ++
      dictArgmax req_counts

/-- `_calculate_cluster_similarity`: `1.0` for fewer than two members, else the
mean pairwise cosine similarity of the members' embedding rows (external
numeric computation, provided by the oracle from the member indices). -/
def calculate_cluster_similarity (O : Oracles) (embeddings : List (List Rat))
    (req_indices : List (Nat × ComplianceRequirement)) : Rat :=
  if req_indices.length < 2 then 1
  else O.cosineMean embeddings (req_indices.map (fun p => p.1))

/-- `_create_clusters`: one `SemanticCluster` per non-noise label in
first-occurrence order; entries with label `-1` are skipped (`continue`). -/
def create_clusters (O : Oracles) (reqs : List ComplianceRequirement)
    (labels : List Int) (embeddings : List (List Rat)) : List SemanticCluster :=
  (cluster_dict labels reqs).filterMap (fun entry =>
    if entry.1 = -1 then none
    else
      some { cluster_id := "CLUSTER-" ++ toString entry.1
             cluster_name := generate_cluster_name (entry.2.map (fun p => p.2))
             requirements := entry.2.map (fun p => p.2)
             similarity_score := calculate_cluster_similarity O embeddings entry.2
             harmonized_requirement := none })

/-- `cluster_requirements`: empty input short-circuits to `[]`; otherwise
prepare texts, embed, label, and build the clusters. -/
def cluster_requirements (O : Oracles) (reqs : List ComplianceRequirement) :
    List SemanticCluster :=
  if reqs.isEmpty then []
  else
    let texts := prepare_texts reqs
    let embeddings := O.embed texts
    let cluster_labels := perform_clustering O embeddings
    create_clusters O reqs cluster_labels embeddings

/-- `harmonize_requirements`: cluster, harmonize every cluster with a
non-empty member list (attaching the result to the cluster), and assemble the
report; the ratio is `harmonized_count / original_count`, `0` on empty input.
`attach_harmonized` is the per-cluster body of the harmonization loop: clusters
with an empty member list are left untouched (the loop's `if cluster.requirements`
guard); the others receive their harmonized requirement. -/
def attach_harmonized (c : SemanticCluster) : SemanticCluster :=
  match create_harmonized_requirement c.requirements with
  | none => c
  | some h => { c with harmonized_requirement := some h }

/-- `harmonize_requirements`: cluster, harmonize, and assemble the report. -/
def harmonize_requirements (O : Oracles) (reqs : List ComplianceRequirement) :
    HarmonizationResponse :=
  let clusters := cluster_requirements O reqs
  let updated := clusters.map attach_harmonized
  let harmonized := clusters.filterMap (fun c =>
    create_harmonized_requirement c.requirements)
  { original_requirements := reqs
    clusters := updated
    harmonized_requirements := harmonized
    total_clusters := updated.length
    harmonization_ratio :=
      if 0 < reqs.length then (harmonized.length : Rat) / (reqs.length : Rat) else 0 }

/-! ### Generic lemmas about the Python `min` / `max` / dict idioms -/

theorem foldMinBy_cons {α : Type} (key : α → Nat) (a x : α) (l : List α) :
    foldMinBy key a (x :: l) = foldMinBy key (if key x < key a then x else a) l := rfl

theorem foldMinBy_mem {α : Type} (key : α → Nat) (a : α) (l : List α) :
    foldMinBy key a l = a ∨ foldMinBy key a l ∈ l := by
  induction l generalizing a with
  | nil => left; rfl
  | cons x xs ih =>
    rw [foldMinBy_cons]
    rcases ih (if key x < key a then x else a) with h | h
    · by_cases hc : key x < key a
      · right; rw [h, if_pos hc]; exact List.mem_cons_self x xs
      · left; rw [h, if_neg hc]
    · right; exact List.mem_cons_of_mem x h

theorem foldMinBy_le {α : Type} (key : α → Nat) (a : α) (l : List α) :
    key (foldMinBy key a l) ≤ key a ∧ ∀ x ∈ l, key (foldMinBy key a l) ≤ key x := by
  induction l generalizing a with
  | nil => exact ⟨le_refl _, fun x hx => absurd hx (List.not_mem_nil x)⟩
  | cons x xs ih =>
    rw [foldMinBy_cons]
    obtain ⟨h1, h2⟩ := ih (if key x < key a then x else a)
    have hif : key (if key x < key a then x else a) ≤ key a ∧
        key (if key x < key a then x else a) ≤ key x := by
      by_cases hc : key x < key a <;> simp [hc] <;> omega
    refine ⟨le_trans h1 hif.1, ?_⟩
    intro y hy
    rcases List.mem_cons.mp hy with rfl | hy
    · exact le_trans h1 hif.2
    · exact h2 y hy

theorem foldMaxBy_cons {α : Type} (key : α → Nat) (a x : α) (l : List α) :
    foldMaxBy key a (x :: l) = foldMaxBy key (if key a < key x then x else a) l := rfl

theorem foldMaxBy_mem {α : Type} (key : α → Nat) (a : α) (l : List α) :
    foldMaxBy key a l = a ∨ foldMaxBy key a l ∈ l := by
  induction l generalizing a with
  | nil => left; rfl
  | cons x xs ih =>
    rw [foldMaxBy_cons]
    rcases ih (if key a < key x then x else a) with h | h
    · by_cases hc : key a < key x
      · right; rw [h, if_pos hc]; exact List.mem_cons_self x xs
      · left; rw [h, if_neg hc]
    · right; exact List.mem_cons_of_mem x h

theorem foldMaxBy_ge {α : Type} (key : α → Nat) (a : α) (l : List α) :
    key a ≤ key (foldMaxBy key a l) ∧ ∀ x ∈ l, key x ≤ key (foldMaxBy key a l) := by
  induction l generalizing a with
  | nil => exact ⟨le_refl _, fun x hx => absurd hx (List.not_mem_nil x)⟩
  | cons x xs ih =>
    rw [foldMaxBy_cons]
    obtain ⟨h1, h2⟩ := ih (if key a < key x then x else a)
    have hif : key a ≤ key (if key a < key x then x else a) ∧
        key x ≤ key (if key a < key x then x else a) := by
      by_cases hc : key a < key x <;> simp [hc] <;> omega
    refine ⟨le_trans hif.1 h1, ?_⟩
    intro y hy
    rcases List.mem_cons.mp hy with rfl | hy
    · exact le_trans hif.2 h1
    · exact h2 y hy

theorem head_filter_spec {α : Type} (p : α → Bool) (l : List α) (x : α) (xs : List α)
    (h : l.filter p = x :: xs) : x ∈ l ∧ p x = true := by
  have hx : x ∈ l.filter p := by rw [h]; exact List.mem_cons_self x xs
  exact List.mem_filter.mp hx

theorem mem_truthyStrings {l : List (Option String)} {s : String} :
    s ∈ truthyStrings l ↔ some s ∈ l ∧ s ≠ "" := by
  simp [truthyStrings]

theorem joinSep_infix (sep : String) (ps : List String) :
    ∀ p ∈ ps, p.data <:+: (joinSep sep ps).data := by
  induction ps with
  | nil => intro p hp; exact absurd hp (List.not_mem_nil p)
  | cons q rest ih =>
    intro p hp
    rcases List.mem_cons.mp hp with rfl | hp
    · cases rest with
      | nil => exact List.infix_refl _
      | cons r rest' =>
        refine ⟨[], sep.data ++ (joinSep sep (r :: rest')).data, ?_⟩
        simp [joinSep, String.data_append, List.append_assoc]
    · cases rest with
      | nil => exact absurd hp (List.not_mem_nil p)
      | cons r rest' =>
        obtain ⟨s, t, hst⟩ := ih p hp
        refine ⟨q.data ++ sep.data ++ s, t, ?_⟩
        simp only [joinSep, String.data_append, List.append_assoc]
        rw [← List.append_assoc s p.data t, hst]

/-! ### Bookkeeping lemmas about grouping and the clustering pipeline -/

/-- Total member count of the non-noise groups of a label dict. -/
def grpSum : List (Int × List (Nat × ComplianceRequirement)) → Nat
  | [] => 0
  | e :: rest => (if e.1 = -1 then 0 else e.2.length) + grpSum rest

theorem grpSum_groupAppend (d : List (Int × List (Nat × ComplianceRequirement)))
    (k : Int) (v : Nat × ComplianceRequirement) :
    grpSum (groupAppend d k v) = grpSum d + (if k = -1 then 0 else 1) := by
  induction d with
  | nil => by_cases hk : k = -1 <;> simp [groupAppend, grpSum, hk]
  | cons e rest ih =>
    obtain ⟨ek, evs⟩ := e
    simp only [groupAppend]
    by_cases he : ek = k
    · rw [if_pos he]
      subst he
      by_cases hk : ek = -1 <;> simp only [grpSum, hk, if_pos, if_neg, ite_true,
        ite_false, List.length_append, List.length_cons, List.length_nil] <;> omega
    · rw [if_neg he]
      by_cases hk : ek = -1 <;>
        simp only [grpSum, hk, ite_true, ite_false, ih] <;> omega

theorem grpSum_fold (ps : List (Nat × (Int × ComplianceRequirement)))
    (d : List (Int × List (Nat × ComplianceRequirement))) :
    grpSum (ps.foldl (fun d p => groupAppend d p.2.1 (p.1, p.2.2)) d)
      = grpSum d + ps.countP (fun p => decide (p.2.1 ≠ -1)) := by
  induction ps generalizing d with
  | nil => simp
  | cons p ps ih =>
    rw [List.foldl_cons, ih, grpSum_groupAppend, List.countP_cons]
    by_cases h : p.2.1 = -1
    · simp [h]
    · simp [h]
      omega

theorem countP_enumFrom (p : Int × ComplianceRequirement → Bool)
    (l : List (Int × ComplianceRequirement)) :
    ∀ n, (List.enumFrom n l).countP (fun q => p q.2) = l.countP p := by
  induction l with
  | nil => intro n; rfl
  | cons x xs ih => intro n; simp [List.enumFrom, List.countP_cons, ih]

theorem countP_zip_fst (labels : List Int) (reqs : List ComplianceRequirement)
    (hlen : labels.length ≤ reqs.length) :
    (labels.zip reqs).countP (fun z => decide (z.1 ≠ -1))
      = labels.countP (fun l => decide (l ≠ -1)) := by
  induction labels generalizing reqs with
  | nil => rfl
  | cons a as ih =>
    cases reqs with
    | nil => simp at hlen
    | cons r rs =>
      rw [List.zip_cons_cons, List.countP_cons, List.countP_cons,
        ih rs (by simpa using hlen)]

theorem grpSum_cluster_dict (labels : List Int) (reqs : List ComplianceRequirement)
    (hlen : labels.length ≤ reqs.length) :
    grpSum (cluster_dict labels reqs) = labels.countP (fun l => decide (l ≠ -1)) := by
  unfold cluster_dict
  rw [grpSum_fold]
  have h0 : grpSum [] = 0 := rfl
  have h1 : (labels.zip reqs).enum.countP (fun p => decide (p.2.1 ≠ -1))
      = (labels.zip reqs).countP (fun z => decide (z.1 ≠ -1)) :=
    countP_enumFrom (fun z => decide (z.1 ≠ -1)) (labels.zip reqs) 0
  rw [h0, Nat.zero_add, h1, countP_zip_fst labels reqs hlen]

theorem create_clusters_sum (O : Oracles) (reqs : List ComplianceRequirement)
    (labels : List Int) (embeddings : List (List Rat)) :
    ((create_clusters O reqs labels embeddings).map (fun c => c.requirements.length)).sum
      = grpSum (cluster_dict labels reqs) := by
  unfold create_clusters
  generalize cluster_dict labels reqs = d
  induction d with
  | nil => rfl
  | cons e rest ih =>
    by_cases h : e.1 = -1 <;> simp [List.filterMap_cons, h, grpSum, ih]

theorem perform_clustering_length (O : Oracles) (hO : O.Wf)
    (embeddings : List (List Rat)) :
    (perform_clustering O embeddings).length = embeddings.length := by
  obtain ⟨-, hd, hk⟩ := hO
  unfold perform_clustering
  split
  · simp
  · split
    · split
      · exact hk _ _
      · exact hd _
    · exact hd _

theorem groupAppend_groups_ne_nil (d : List (Int × List (Nat × ComplianceRequirement)))
    (k : Int) (v : Nat × ComplianceRequirement)
    (h : ∀ e ∈ d, e.2 ≠ []) : ∀ e ∈ groupAppend d k v, e.2 ≠ [] := by
  induction d with
  | nil =>
    intro e he
    rcases List.mem_cons.mp he with rfl | he'
    · simp
    · exact absurd he' (List.not_mem_nil e)
  | cons f rest ih =>
    obtain ⟨fk, fvs⟩ := f
    intro e he
    by_cases hf : fk = k
    · subst hf
      simp only [groupAppend, if_pos rfl] at he
      rcases List.mem_cons.mp he with rfl | he'
      · simp
      · exact h e (List.mem_cons_of_mem _ he')
    · simp only [groupAppend, if_neg hf] at he
      rcases List.mem_cons.mp he with rfl | he'
      · exact h _ (List.mem_cons_self _ _)
      · exact ih (fun e' he'' => h e' (List.mem_cons_of_mem _ he'')) e he'

theorem cluster_dict_groups_ne_nil (labels : List Int)
    (reqs : List ComplianceRequirement) :
    ∀ e ∈ cluster_dict labels reqs, e.2 ≠ [] := by
  unfold cluster_dict
  generalize (labels.zip reqs).enum = ps
  have key : ∀ (ps : List (Nat × (Int × ComplianceRequirement)))
      (d : List (Int × List (Nat × ComplianceRequirement))),
      (∀ e ∈ d, e.2 ≠ []) →
      ∀ e ∈ ps.foldl (fun d p => groupAppend d p.2.1 (p.1, p.2.2)) d, e.2 ≠ [] := by
    intro ps
    induction ps with
    | nil => intro d hd; exact hd
    | cons p ps ih =>
      intro d hd
      exact ih _ (groupAppend_groups_ne_nil d p.2.1 (p.1, p.2.2) hd)
  exact key ps [] (fun e he => absurd he (List.not_mem_nil e))

theorem create_clusters_requirements_ne_nil (O : Oracles)
    (reqs : List ComplianceRequirement) (labels : List Int)
    (embeddings : List (List Rat)) :
    ∀ c ∈ create_clusters O reqs labels embeddings, c.requirements ≠ [] := by
  intro c hc
  unfold create_clusters at hc
  rw [List.mem_filterMap] at hc
  obtain ⟨e, he, hce⟩ := hc
  by_cases h : e.1 = -1
  · simp [h] at hce
  · simp only [h, if_neg, ite_false] at hce
    have hne := cluster_dict_groups_ne_nil labels reqs e he
    cases hcc : e.2 with
    | nil => exact absurd hcc hne
    | cons a l =>
      injection hce with hce'
      rw [← hce']
      simp [hcc]

theorem cluster_requirements_ne_nil (O : Oracles)
    (reqs : List ComplianceRequirement) :
    ∀ c ∈ cluster_requirements O reqs, c.requirements ≠ [] := by
  intro c hc
  unfold cluster_requirements at hc
  split at hc
  · exact absurd hc (List.not_mem_nil c)
  · exact create_clusters_requirements_ne_nil O reqs _ _ c hc

theorem create_harmonized_isSome (reqs : List ComplianceRequirement)
    (h : reqs ≠ []) : ∃ hr, create_harmonized_requirement reqs = some hr := by
  match reqs with
  | [] => exact absurd rfl h
  | [r] => exact ⟨r, rfl⟩
  | r0 :: r1 :: rest => exact ⟨merge_cluster (r0 :: r1 :: rest), rfl⟩

/-! ### Lemmas about the control-dedup dict comprehension -/

/-- Association lookup in the control dict (Python `d[k]`). -/
def lookupControl : List (String × MappedControl) → String → Option MappedControl
  | [], _ => none
  | (k, v) :: rest, key => if k = key then some v else lookupControl rest key

theorem lookupControl_dictInsert (d : List (String × MappedControl))
    (c : MappedControl) (k : String) :
    lookupControl (dictInsert d c) k =
      if k = c.control_id then some c else lookupControl d k := by
  induction d with
  | nil =>
    by_cases h : k = c.control_id <;>
      simp [dictInsert, lookupControl, h, eq_comm]
  | cons e rest ih =>
    obtain ⟨ek, ev⟩ := e
    simp only [dictInsert]
    by_cases h1 : ek = c.control_id
    · rw [if_pos h1]
      by_cases h2 : ek = k
      · have hk : k = c.control_id := h2 ▸ h1
        simp [lookupControl, h2, hk]
      · have hk : ¬ k = c.control_id := fun hh => h2 (h1.trans hh.symm)
        simp [lookupControl, h2, hk]
    · rw [if_neg h1]
      by_cases h2 : ek = k
      · have hk : ¬ k = c.control_id := fun hh => h1 (h2.trans hh)
        simp [lookupControl, h2, hk]
      · simp [lookupControl, h2, ih]

theorem keys_dictInsert (d : List (String × MappedControl)) (c : MappedControl) :
    (dictInsert d c).map Prod.fst =
      if c.control_id ∈ d.map Prod.fst then d.map Prod.fst
      else d.map Prod.fst ++ [c.control_id] := by
  induction d with
  | nil => simp [dictInsert]
  | cons e rest ih =>
    obtain ⟨ek, ev⟩ := e
    by_cases h1 : ek = c.control_id
    · subst h1
      simp [dictInsert]
    · by_cases h2 : c.control_id ∈ rest.map Prod.fst <;>
        simp [dictInsert, h1, Ne.symm h1, h2, ih]

theorem entries_dictInsert (d : List (String × MappedControl)) (c : MappedControl)
    (h : ∀ e ∈ d, (e.2 : MappedControl).control_id = e.1) :
    ∀ e ∈ dictInsert d c, (e.2 : MappedControl).control_id = e.1 := by
  induction d with
  | nil =>
    intro e he
    rcases List.mem_cons.mp he with rfl | he'
    · rfl
    · exact absurd he' (List.not_mem_nil e)
  | cons f rest ih =>
    obtain ⟨fk, fv⟩ := f
    intro e he
    by_cases h1 : fk = c.control_id
    · subst h1
      simp only [dictInsert, if_pos rfl] at he
      rcases List.mem_cons.mp he with rfl | he'
      · rfl
      · exact h e (List.mem_cons_of_mem _ he')
    · simp only [dictInsert, if_neg h1] at he
      rcases List.mem_cons.mp he with rfl | he'
      · exact h _ (List.mem_cons_self _ _)
      · exact ih (fun e' he'' => h e' (List.mem_cons_of_mem _ he'')) e he'

theorem keys_nodup_dictInsert (d : List (String × MappedControl)) (c : MappedControl)
    (h : (d.map Prod.fst).Nodup) : ((dictInsert d c).map Prod.fst).Nodup := by
  rw [keys_dictInsert]
  by_cases hm : c.control_id ∈ d.map Prod.fst
  · simpa [hm] using h
  · simp only [hm, ite_false]
    rw [List.nodup_append]
    exact ⟨h, List.nodup_singleton _, by simpa using hm⟩

theorem lookup_of_mem_nodup (d : List (String × MappedControl))
    (h : (d.map Prod.fst).Nodup) :
    ∀ e ∈ d, lookupControl d e.1 = some e.2 := by
  induction d with
  | nil => intro e he; exact absurd he (List.not_mem_nil e)
  | cons f rest ih =>
    obtain ⟨fk, fv⟩ := f
    intro e he
    rcases List.mem_cons.mp he with rfl | he'
    · simp [lookupControl]
    · have hne : fk ≠ e.1 := by
        intro hfk
        have : e.1 ∈ rest.map Prod.fst := List.mem_map.mpr ⟨e, he', rfl⟩
        rw [List.map_cons] at h
        exact (List.nodup_cons.mp h).1 (hfk ▸ this)
      have hrest : (rest.map Prod.fst).Nodup := by
        rw [List.map_cons] at h
        exact (List.nodup_cons.mp h).2
      simp [lookupControl, hne, ih hrest e he']

theorem lookup_mem (d : List (String × MappedControl)) (k : String)
    (v : MappedControl) (h : lookupControl d k = some v) : (k, v) ∈ d := by
  induction d with
  | nil => exact absurd h (by simp [lookupControl])
  | cons e rest ih =>
    obtain ⟨ek, ev⟩ := e
    by_cases hk : ek = k
    · subst hk
      simp only [lookupControl, if_pos rfl] at h
      injection h with h
      exact h ▸ List.mem_cons_self _ _
    · simp only [lookupControl, if_neg hk] at h
      exact List.mem_cons_of_mem _ (ih h)

theorem buildControlDict_concat (cs : List MappedControl) (c : MappedControl) :
    buildControlDict (cs ++ [c]) = dictInsert (buildControlDict cs) c := by
  simp [buildControlDict, List.foldl_append]

theorem buildControlDict_lookup (cs : List MappedControl) :
    ∀ k, lookupControl (buildControlDict cs) k =
      (cs.filter (fun c => c.control_id = k)).getLast? := by
  induction cs using List.reverseRecOn with
  | nil => intro k; rfl
  | append_singleton cs c ih =>
    intro k
    rw [buildControlDict_concat, lookupControl_dictInsert, List.filter_append]
    by_cases h : k = c.control_id
    · subst h
      simp [List.getLast?_concat]
    · have hcc : ¬ (c.control_id = k) := fun hh => h hh.symm
      have hfc : List.filter (fun x => decide (x.control_id = k)) [c] = [] := by
        simp [hcc]
      rw [hfc, List.append_nil, if_neg h, ih k]

theorem buildControlDict_keys_nodup (cs : List MappedControl) :
    ((buildControlDict cs).map Prod.fst).Nodup := by
  induction cs using List.reverseRecOn with
  | nil => exact List.nodup_nil
  | append_singleton cs c ih =>
    rw [buildControlDict_concat]
    exact keys_nodup_dictInsert _ c ih

theorem buildControlDict_entries (cs : List MappedControl) :
    ∀ e ∈ buildControlDict cs, (e.2 : MappedControl).control_id = e.1 := by
  induction cs using List.reverseRecOn with
  | nil => intro e he; exact absurd he (List.not_mem_nil e)
  | append_singleton cs c ih =>
    rw [buildControlDict_concat]
    exact entries_dictInsert _ c ih

/-! ### The maximum-priority level selection -/

theorem max_priority_level_spec (levels : List String) (hne : levels ≠ []) :
    max_priority_level levels ∈ levels ∧
    ∀ s ∈ levels, risk_priority s ≤ risk_priority (max_priority_level levels) := by
  cases levels with
  | nil => exact absurd rfl hne
  | cons x xs =>
    constructor
    · rcases foldMaxBy_mem risk_priority x xs with h | h
      · rw [max_priority_level, h]; exact List.mem_cons_self _ _
      · rw [max_priority_level]; exact List.mem_cons_of_mem _ h
    · intro s hs
      obtain ⟨h1, h2⟩ := foldMaxBy_ge risk_priority x xs
      rcases List.mem_cons.mp hs with rfl | hs'
      · exact h1
      · exact h2 s hs'

/-! ### Behaviour of the deadline merge -/

theorem harmonize_deadline_spec (ds : List String) :
    (ds = [] → harmonize_deadline ds = none) ∧
    (ds.filter (fun d => strContains d.toLower "immediately") ≠ [] →
      ∃ d, harmonize_deadline ds = some d ∧ d ∈ ds ∧
        strContains d.toLower "immediately" = true) ∧
    (ds.filter (fun d => strContains d.toLower "immediately") = [] →
      ds.filter (fun d => (firstNumber d).isSome) ≠ [] →
      ∃ d n, harmonize_deadline ds = some d ∧ d ∈ ds ∧ firstNumber d = some n ∧
        ∀ e ∈ ds, ∀ m, firstNumber e = some m → n ≤ m) ∧
    (ds.filter (fun d => strContains d.toLower "immediately") = [] →
      ds.filter (fun d => (firstNumber d).isSome) = [] →
      harmonize_deadline ds = ds.head?) := by
  cases ds with
  | nil => exact ⟨fun _ => rfl, fun h => absurd rfl h, fun _ h => absurd rfl h, fun _ _ => rfl⟩
  | cons d0 rest =>
    refine ⟨fun h => absurd h (List.cons_ne_nil d0 rest), ?_, ?_, ?_⟩
    · intro himm
      cases hf : (d0 :: rest).filter (fun d => strContains d.toLower "immediately") with
      | nil => exact absurd hf himm
      | cons r rs =>
        obtain ⟨hmem, hprop⟩ := head_filter_spec _ _ r rs hf
        refine ⟨r, ?_, hmem, hprop⟩
        simp only [harmonize_deadline, hf]
    · intro himm hnum
      cases hf : (d0 :: rest).filter (fun d => (firstNumber d).isSome) with
      | nil => exact absurd hf hnum
      | cons t ts =>
        set r := foldMinBy (fun d => (firstNumber d).getD 0) t ts with hr
        have hrmem : r ∈ t :: ts := by
          rcases foldMinBy_mem (fun d => (firstNumber d).getD 0) t ts with h | h
          · rw [hr, h]; exact List.mem_cons_self _ _
          · exact List.mem_cons_of_mem _ h
        have hrfil : r ∈ (d0 :: rest).filter (fun d => (firstNumber d).isSome) := by
          rw [hf]; exact hrmem
        obtain ⟨hrds, hrsome⟩ := List.mem_filter.mp hrfil
        obtain ⟨n, hn⟩ := Option.isSome_iff_exists.mp hrsome
        refine ⟨r, n, ?_, hrds, hn, ?_⟩
        · simp only [harmonize_deadline, himm, hf]
        · intro e he m hm
          have hefil : e ∈ (d0 :: rest).filter (fun d => (firstNumber d).isSome) :=
            List.mem_filter.mpr ⟨he, by simp [hm]⟩
          rw [hf] at hefil
          obtain ⟨h1, h2⟩ := foldMinBy_le (fun d => (firstNumber d).getD 0) t ts
          have hle : (firstNumber r).getD 0 ≤ (firstNumber e).getD 0 := by
            rcases List.mem_cons.mp hefil with rfl | hets
            · exact h1
            · exact h2 e hets
          rw [hn, hm] at hle
          simpa using hle
    · intro himm hnum
      simp only [harmonize_deadline, himm, hnum, List.head?]

/-! ### Concrete instances used by counterexamples and witnesses -/

/-- Requirement with only the four mandatory text fields set. -/
def mkReq (p a r t : String) : ComplianceRequirement :=
  { policy := p, actor := a, requirement := r, trigger := t }

def reqA : ComplianceRequirement := mkReq "PA" "AA" "RA" "TA"

def reqB : ComplianceRequirement := mkReq "PB" "AB" "RB" "TB"

def reqC : ComplianceRequirement := mkReq "PC" "AC" "RC" "TC"

/-- Well-formed oracles that put every row in cluster `0`. -/
def Owf : Oracles :=
  { embed := fun ts => ts.map (fun _ => ([] : List Rat))
    dbscan := fun e => e.map (fun _ => 0)
    kmeans := fun _ e => e.map (fun _ => 0)
    cosineMean := fun _ _ => 0 }

/-- Oracles whose density pass labels a three-row batch `[0, 0, -1]`:
two clustered points and one DBSCAN noise point. -/
def OnoiseKeep : Oracles :=
  { embed := fun ts => ts.map (fun _ => ([] : List Rat))
    dbscan := fun e => if e.length = 3 then [0, 0, -1] else e.map (fun _ => 0)
    kmeans := fun _ e => e.map (fun _ => 7)
    cosineMean := fun _ _ => 0 }

/-- Oracles whose density pass labels a four-row batch `[0, 0, 0, -1]` (one
real cluster plus noise) and whose KMeans pass returns `[0, 1, 0, 1]`. -/
def OC3 : Oracles :=
  { embed := fun ts => ts.map (fun _ => ([] : List Rat))
    dbscan := fun _ => [0, 0, 0, -1]
    kmeans := fun _ e => if e.length = 4 then [0, 1, 0, 1] else e.map (fun _ => 0)
    cosineMean := fun _ _ => 0 }

def embC3 : List (List Rat) := [[1], [1], [1], [2]]

def penReqA : ComplianceRequirement :=
  { mkReq "P1" "A1" "R1" "T1" with penalty := some "fines" }

def penReqB : ComplianceRequirement :=
  { mkReq "P2" "A2" "R2" "T2" with penalty := some "fines" }

def actReqA : ComplianceRequirement :=
  mkReq "P1" "AAAAAAAAAAAAAAAAAAAAA" "R1" "T1"

def actReqB : ComplianceRequirement :=
  mkReq "P2" "BBBBBBBBBBBBBBBBBBBBBBBBBBBBBB" "R2" "T2"

/-! ### Claim C1 -/

/-- Claim C1 (counterexample): the partition property fails on the code.
With density labels `[0, 0, -1]` (two or more distinct labels, so the labels
are kept) the noise-labelled requirement is skipped by `_create_clusters`
(`if cluster_id == -1: continue`): the report's clusters hold 2 members in
total while the input has 3 requirements, so a requirement is dropped rather
than becoming a singleton cluster. -/
theorem C1_partition_cex :
    ([reqA, reqB, reqC] : List ComplianceRequirement) ≠ [] ∧
    ([reqA, reqB, reqC] : List ComplianceRequirement).length = 3 ∧
    ((harmonize_requirements OnoiseKeep [reqA, reqB, reqC]).clusters.map
      (fun c => c.requirements.length)).sum = 2 := by
  refine ⟨by decide, by decide, by decide⟩

/-- Claim C1 (amended): the clusters of the report partition exactly the
requirements whose final label is not `-1`; the sum of cluster member counts
equals the number of non-noise labels, so requirements labelled `-1` by the
kept density pass are dropped from the report, not turned into singleton
clusters. -/
theorem C1_partition_amended (O : Oracles) (hO : O.Wf)
    (reqs : List ComplianceRequirement) :
    ((harmonize_requirements O reqs).clusters.map
      (fun c => c.requirements.length)).sum
      = (perform_clustering O (O.embed (prepare_texts reqs))).countP
          (fun l => decide (l ≠ -1)) := by
  have hlab : (perform_clustering O (O.embed (prepare_texts reqs))).length
      = reqs.length := by
    rw [perform_clustering_length O hO, hO.1, prepare_texts, List.length_map]
  have hattach : ∀ cs : List SemanticCluster,
      (cs.map attach_harmonized).map (fun c => c.requirements.length)
        = cs.map (fun c => c.requirements.length) := by
    intro cs
    rw [List.map_map]
    refine List.map_congr_left ?_
    intro c _
    show (attach_harmonized c).requirements.length = c.requirements.length
    unfold attach_harmonized
    cases create_harmonized_requirement c.requirements <;> rfl
  show (((cluster_requirements O reqs).map attach_harmonized).map
      (fun c => c.requirements.length)).sum = _
  rw [hattach]
  by_cases hempty : reqs.isEmpty = true
  · have hnil : reqs = [] := List.isEmpty_iff.mp hempty
    subst hnil
    have hpc : perform_clustering O (O.embed (prepare_texts [])) = [] := by
      apply List.length_eq_zero.mp
      rw [perform_clustering_length O hO, hO.1]
      rfl
    rw [hpc]
    rfl
  · unfold cluster_requirements
    rw [if_neg hempty]
    rw [create_clusters_sum, grpSum_cluster_dict _ _ (le_of_eq hlab)]

/-- Claim C1 (witness): the amended partition theorem at concrete input. -/
theorem C1_partition_witness :
    Owf.Wf ∧
    ((harmonize_requirements Owf [reqA, reqB]).clusters.map
      (fun c => c.requirements.length)).sum
      = (perform_clustering Owf (Owf.embed (prepare_texts [reqA, reqB]))).countP
          (fun l => decide (l ≠ -1)) :=
  ⟨⟨fun ts => by simp [Owf], fun e => by simp [Owf], fun k e => by simp [Owf]⟩,
   C1_partition_amended Owf
     ⟨fun ts => by simp [Owf], fun e => by simp [Owf], fun k e => by simp [Owf]⟩
     [reqA, reqB]⟩

/-! ### Claim C2 -/

/-- Claim C2 (counterexample): penalties are not de-duplicated. Two members
that both carry penalty `"fines"` harmonize to `"fines; fines"`, repeating the
single distinct penalty string, whereas the claim demands the join of the
distinct penalties, `"fines"`. -/
theorem C2_penalty_cex :
    (create_harmonized_requirement [penReqA, penReqB]).map (fun h => h.penalty)
      = some (some "fines; fines") ∧
    truthyStrings ([penReqA, penReqB].map (fun r => r.penalty))
      = ["fines", "fines"] ∧
    (["fines", "fines"] : List String).dedup = ["fines"] ∧
    ("fines; fines" : String) ≠ "fines" := by
  refine ⟨by decide, by decide, by decide, by decide⟩

/-- Conclusion of the amended claim C2: the harmonized penalty of a
multi-member cluster is the `"; "`-join of all truthy member penalties in
member order, duplicates retained; every truthy member penalty occurs in the
result (as a substring); `none` when no member has a truthy penalty. -/
def PenaltySpec (reqs : List ComplianceRequirement) : Prop :=
  ∃ hr, create_harmonized_requirement reqs = some hr ∧
    (truthyStrings (reqs.map (fun r => r.penalty)) = [] → hr.penalty = none) ∧
    (truthyStrings (reqs.map (fun r => r.penalty)) ≠ [] →
      hr.penalty
        = some (joinSep "; " (truthyStrings (reqs.map (fun r => r.penalty))))) ∧
    (∀ p, some p ∈ reqs.map (fun r => r.penalty) → p ≠ "" →
      ∀ res, hr.penalty = some res → p.data <:+: res.data)

/-- Claim C2 (amended): for every cluster with at least two members the
harmonized penalty is the `"; "`-concatenation of all non-null member
penalties in member order — completeness holds (no penalty is dropped), but
duplicate penalty strings are kept, not collapsed to distinct ones. -/
theorem C2_penalty_amended (reqs : List ComplianceRequirement)
    (h2 : 2 ≤ reqs.length) : PenaltySpec reqs := by
  match reqs, h2 with
  | r0 :: r1 :: rest, _ =>
    refine ⟨merge_cluster (r0 :: r1 :: rest), rfl, ?_, ?_, ?_⟩
    · intro h
      show harmonize_penalty (truthyStrings ((r0 :: r1 :: rest).map
        (fun r => r.penalty))) = none
      rw [h]
      rfl
    · intro h
      cases hps : truthyStrings ((r0 :: r1 :: rest).map (fun r => r.penalty)) with
      | nil => exact absurd hps h
      | cons q qs =>
        show harmonize_penalty (truthyStrings ((r0 :: r1 :: rest).map
          (fun r => r.penalty))) = _
        rw [hps]
        rfl
    · intro p hp hpne res hres
      have hmem : p ∈ truthyStrings ((r0 :: r1 :: rest).map (fun r => r.penalty)) :=
        mem_truthyStrings.mpr ⟨hp, hpne⟩
      cases hps : truthyStrings ((r0 :: r1 :: rest).map (fun r => r.penalty)) with
      | nil =>
        rw [hps] at hmem
        exact absurd hmem (List.not_mem_nil p)
      | cons q qs =>
        have hpen : (merge_cluster (r0 :: r1 :: rest)).penalty
            = some (joinSep "; " (q :: qs)) := by
          show harmonize_penalty (truthyStrings ((r0 :: r1 :: rest).map
            (fun r => r.penalty))) = _
          rw [hps]
          rfl
        rw [hpen] at hres
        injection hres with hres
        rw [← hres]
        rw [hps] at hmem
        exact joinSep_infix "; " (q :: qs) p hmem

/-- Claim C2 (witness): the amended penalty theorem at concrete input. -/
theorem C2_penalty_witness :
    2 ≤ ([penReqA, penReqB] : List ComplianceRequirement).length ∧
    PenaltySpec [penReqA, penReqB] :=
  ⟨by decide, C2_penalty_amended [penReqA, penReqB] (by decide)⟩

/-! ### Claim C3 -/

/-- Claim C3 (counterexample): the fallback condition counts the noise label.
With density labels `[0, 0, 0, -1]` there is exactly one non-noise cluster, so
the claim demands the density labels be discarded in favour of KMeans with
`k = min(4 / 2, 20) = 2 ≥ 2`; but `len(set(labels)) = 2 > 1` (the set counts
`-1`), so the code keeps the density labels, which differ from the KMeans
labels. -/
theorem C3_fallback_cex :
    2 ≤ embC3.length ∧
    ((OC3.dbscan embC3).filter (fun l => decide (l ≠ -1))).dedup.length = 1 ∧
    2 ≤ min (embC3.length / 2) max_clusters ∧
    perform_clustering OC3 embC3 = [0, 0, 0, -1] ∧
    OC3.kmeans (min (embC3.length / 2) max_clusters) embC3 = [0, 1, 0, 1] ∧
    ([0, 0, 0, -1] : List Int) ≠ [0, 1, 0, 1] := by
  refine ⟨by decide, by decide, by decide, by decide, by decide, by decide⟩

/-- Claim C3 (amended): for `N ≥ 2` the KMeans fallback runs exactly when the
set of density labels — the noise label `-1` included — has at most one
element (and `k = min(⌊N/2⌋, 20) ≥ 2`); when the density pass yields at least
two distinct labels in total (for example one real cluster plus noise), the
density labels are kept. -/
theorem C3_fallback_amended (O : Oracles) (emb : List (List Rat))
    (h2 : 2 ≤ emb.length) :
    (2 ≤ (O.dbscan emb).dedup.length → perform_clustering O emb = O.dbscan emb) ∧
    ((O.dbscan emb).dedup.length ≤ 1 → 2 ≤ min (emb.length / 2) max_clusters →
      perform_clustering O emb
        = O.kmeans (min (emb.length / 2) max_clusters) emb) ∧
    ((O.dbscan emb).dedup.length ≤ 1 → min (emb.length / 2) max_clusters < 2 →
      perform_clustering O emb = O.dbscan emb) := by
  have hnot : ¬ emb.length < 2 := by omega
  refine ⟨?_, ?_, ?_⟩
  · intro h
    unfold perform_clustering
    rw [if_neg hnot, if_neg (by omega)]
  · intro h1 hk
    unfold perform_clustering
    rw [if_neg hnot, if_pos h1, if_pos (by omega)]
  · intro h1 hk
    unfold perform_clustering
    rw [if_neg hnot, if_pos h1, if_neg (by omega)]

/-- Claim C3 (witness): the amended fallback theorem at concrete input — two
distinct density labels, so the density labels are kept. -/
theorem C3_fallback_witness :
    2 ≤ embC3.length ∧ perform_clustering OC3 embC3 = OC3.dbscan embC3 :=
  ⟨by decide, (C3_fallback_amended OC3 embC3 (by decide)).1 (by decide)⟩

/-! ### Claim C4 -/

/-- Claim C4 (counterexample): the actor merge does not pick the longest
actor. With a 21-character actor first and a 30-character actor second, the
code returns the first actor longer than 20 characters — the 21-character one
— not the longest. -/
theorem C4_actor_cex :
    (create_harmonized_requirement [actReqA, actReqB]).map (fun h => h.actor)
      = some actReqA.actor ∧
    actReqA.actor.length = 21 ∧
    actReqB.actor.length = 30 ∧
    actReqA.actor.length < actReqB.actor.length := by
  refine ⟨by decide, by decide, by decide, by decide⟩

theorem harmonize_actor_cons (a0 : String) (as : List String) :
    harmonize_actor (a0 :: as)
      = ((a0 :: as).filter (fun a => 20 < a.length)).headD a0 := by
  unfold harmonize_actor
  cases hf : (a0 :: as).filter (fun a => 20 < a.length) with
  | nil => simp [hf]
  | cons a as' => simp [hf]

/-- Conclusion of the amended claim C4: the harmonized actor of a multi-member
cluster is the first member actor longer than 20 characters, or the first
member's actor when none is that long; it is always some member's actor. -/
def ActorSpec (reqs : List ComplianceRequirement) : Prop :=
  ∃ hr, create_harmonized_requirement reqs = some hr ∧
    hr.actor = ((reqs.map (fun r => r.actor)).filter
        (fun a => 20 < a.length)).headD ((reqs.map (fun r => r.actor)).headI) ∧
    ∃ m ∈ reqs, hr.actor = m.actor

/-- Claim C4 (amended): for every cluster with at least two members the
harmonized actor is the first member actor whose length exceeds 20 characters
(`len(a) > 20`), and the first member's actor when no actor is that long —
not the longest actor. -/
theorem C4_actor_amended (reqs : List ComplianceRequirement)
    (h2 : 2 ≤ reqs.length) : ActorSpec reqs := by
  match reqs, h2 with
  | r0 :: r1 :: rest, _ =>
    have hmap : (r0 :: r1 :: rest).map (fun r => r.actor)
        = r0.actor :: (r1 :: rest).map (fun r => r.actor) := rfl
    have hact : (merge_cluster (r0 :: r1 :: rest)).actor
        = harmonize_actor ((r0 :: r1 :: rest).map (fun r => r.actor)) := rfl
    refine ⟨merge_cluster (r0 :: r1 :: rest), rfl, ?_, ?_⟩
    · rw [hact, hmap, harmonize_actor_cons, ← hmap]
      rfl
    · rw [hact, hmap, harmonize_actor_cons]
      cases hf : (r0.actor :: (r1 :: rest).map (fun r => r.actor)).filter
          (fun a => 20 < a.length) with
      | nil => exact ⟨r0, List.mem_cons_self _ _, rfl⟩
      | cons a as' =>
        obtain ⟨hmem, -⟩ := head_filter_spec _ _ a as' hf
        rw [← hmap] at hmem
        obtain ⟨m, hm, hma⟩ := List.mem_map.mp hmem
        exact ⟨m, hm, by rw [List.headD, ← hma]⟩

/-- Claim C4 (witness): the amended actor theorem at concrete input. -/
theorem C4_actor_witness :
    2 ≤ ([actReqA, actReqB] : List ComplianceRequirement).length ∧
    ActorSpec [actReqA, actReqB] :=
  ⟨by decide, C4_actor_amended [actReqA, actReqB] (by decide)⟩

/-! ### Claim C5 -/

def dlReqA : ComplianceRequirement :=
  { mkReq "P1" "A1" "File ownership disclosure" "T1" with
      deadline := some "10 days", penalty := some "fines" }

def dlReqB : ComplianceRequirement :=
  { mkReq "P2" "A2" "File ownership disclosure statement" "T2" with
      deadline := some "30 days", penalty := some "sanctions" }

/-- Conclusion of claim C5: the harmonized deadline of a multi-member cluster
follows the precedence (1) a member deadline containing `immediately`,
(2) the member deadline with the numerically smallest first number among those
containing a number, (3) the first truthy member deadline, (4) `none` when no
member has a truthy deadline. -/
def DeadlineSpec (reqs : List ComplianceRequirement) : Prop :=
  ∃ hr, create_harmonized_requirement reqs = some hr ∧
    (truthyStrings (reqs.map (fun r => r.deadline)) = [] → hr.deadline = none) ∧
    ((truthyStrings (reqs.map (fun r => r.deadline))).filter
        (fun d => strContains d.toLower "immediately") ≠ [] →
      ∃ d, hr.deadline = some d ∧
        d ∈ truthyStrings (reqs.map (fun r => r.deadline)) ∧
        strContains d.toLower "immediately" = true) ∧
    ((truthyStrings (reqs.map (fun r => r.deadline))).filter
        (fun d => strContains d.toLower "immediately") = [] →
      (truthyStrings (reqs.map (fun r => r.deadline))).filter
        (fun d => (firstNumber d).isSome) ≠ [] →
      ∃ d n, hr.deadline = some d ∧
        d ∈ truthyStrings (reqs.map (fun r => r.deadline)) ∧
        firstNumber d = some n ∧
        ∀ e ∈ truthyStrings (reqs.map (fun r => r.deadline)),
          ∀ m, firstNumber e = some m → n ≤ m) ∧
    ((truthyStrings (reqs.map (fun r => r.deadline))).filter
        (fun d => strContains d.toLower "immediately") = [] →
      (truthyStrings (reqs.map (fun r => r.deadline))).filter
        (fun d => (firstNumber d).isSome) = [] →
      hr.deadline = (truthyStrings (reqs.map (fun r => r.deadline))).head?)

/-- Claim C5 (confirmed): the deadline merge rule follows the claimed
precedence — `immediately` first, then the numerically smallest day count,
then the first non-null deadline, and `null` when no member has one. -/
theorem C5_deadline_correct (reqs : List ComplianceRequirement)
    (h2 : 2 ≤ reqs.length) : DeadlineSpec reqs := by
  match reqs, h2 with
  | r0 :: r1 :: rest, _ =>
    refine ⟨merge_cluster (r0 :: r1 :: rest), rfl, ?_⟩
    have hd : (merge_cluster (r0 :: r1 :: rest)).deadline
        = harmonize_deadline (truthyStrings ((r0 :: r1 :: rest).map
            (fun r => r.deadline))) := rfl
    obtain ⟨s1, s2, s3, s4⟩ := harmonize_deadline_spec
      (truthyStrings ((r0 :: r1 :: rest).map (fun r => r.deadline)))
    rw [hd]
    exact ⟨s1, s2, s3, s4⟩

/-- Claim C5 (witness): the deadline theorem at the spec's scenario inputs
(`"10 days"` vs `"30 days"`). -/
theorem C5_deadline_witness :
    2 ≤ ([dlReqA, dlReqB] : List ComplianceRequirement).length ∧
    DeadlineSpec [dlReqA, dlReqB] :=
  ⟨by decide, C5_deadline_correct [dlReqA, dlReqB] (by decide)⟩

/-! ### Claim C6 -/

/-- Claim C6 (confirmed): a singleton cluster harmonizes to its member
unchanged, and the whole pipeline on a one-element input returns that element
as the single harmonized requirement of a single one-member cluster. -/
theorem C6_singleton_idempotent (O : Oracles) (r : ComplianceRequirement)
    (hlen : (O.embed (prepare_texts [r])).length = 1) :
    create_harmonized_requirement [r] = some r ∧
    (harmonize_requirements O [r]).harmonized_requirements = [r] ∧
    (harmonize_requirements O [r]).clusters.map (fun c => c.requirements)
      = [[r]] := by
  have hpc : perform_clustering O (O.embed (prepare_texts [r])) = [0] := by
    unfold perform_clustering
    rw [hlen]
    simp
  have hcl : cluster_requirements O [r]
      = create_clusters O [r] [0] (O.embed (prepare_texts [r])) := by
    unfold cluster_requirements
    rw [if_neg (by simp)]
    dsimp only
    rw [hpc]
  refine ⟨rfl, ?_, ?_⟩
  · show ((cluster_requirements O [r]).filterMap
      (fun c => create_harmonized_requirement c.requirements)) = [r]
    rw [hcl]
    rfl
  · show ((cluster_requirements O [r]).map attach_harmonized).map
      (fun c => c.requirements) = [[r]]
    rw [hcl]
    rfl

/-- Claim C6 (witness): the singleton theorem at concrete input. -/
theorem C6_singleton_witness :
    (Owf.embed (prepare_texts [reqA])).length = 1 ∧
    (create_harmonized_requirement [reqA] = some reqA ∧
     (harmonize_requirements Owf [reqA]).harmonized_requirements = [reqA] ∧
     (harmonize_requirements Owf [reqA]).clusters.map (fun c => c.requirements)
       = [[reqA]]) :=
  ⟨rfl, C6_singleton_idempotent Owf reqA rfl⟩

/-! ### Claim C7 -/

/-- Claim C7 (confirmed): on the empty input list `harmonize_requirements`
returns (without failing) the report with no clusters, no harmonized
requirements, `total_clusters = 0` and `harmonization_ratio = 0`. -/
theorem C7_empty_report (O : Oracles) :
    harmonize_requirements O [] =
      { original_requirements := []
        clusters := []
        harmonized_requirements := []
        total_clusters := 0
        harmonization_ratio := 0 } := rfl

/-! ### Claim C8 -/

/-- Claim C8 (confirmed): report invariants — `total_clusters` equals the
number of harmonized requirements, each cluster at the same index carries
exactly its harmonized requirement (one per cluster, same order), and for
non-empty input the ratio is `len(harmonized) / len(original)`. -/
theorem C8_report_invariants (O : Oracles) (reqs : List ComplianceRequirement) :
    (harmonize_requirements O reqs).total_clusters
        = (harmonize_requirements O reqs).harmonized_requirements.length ∧
    (harmonize_requirements O reqs).clusters.length
        = (harmonize_requirements O reqs).harmonized_requirements.length ∧
    (harmonize_requirements O reqs).clusters.map
        (fun c => c.harmonized_requirement)
        = (harmonize_requirements O reqs).harmonized_requirements.map some ∧
    (reqs ≠ [] → (harmonize_requirements O reqs).harmonization_ratio
        = ((harmonize_requirements O reqs).harmonized_requirements.length : Rat)
            / (reqs.length : Rat)) := by
  have hne := cluster_requirements_ne_nil O reqs
  have hpair : ∀ (cs : List SemanticCluster), (∀ c ∈ cs, c.requirements ≠ []) →
      (cs.map attach_harmonized).map (fun c => c.harmonized_requirement)
        = (cs.filterMap
            (fun c => create_harmonized_requirement c.requirements)).map some := by
    intro cs
    induction cs with
    | nil => intro _; rfl
    | cons c cs ih =>
      intro h
      obtain ⟨hr, hhr⟩ := create_harmonized_isSome c.requirements
        (h c (List.mem_cons_self _ _))
      have hc : (attach_harmonized c).harmonized_requirement = some hr := by
        unfold attach_harmonized
        rw [hhr]
      rw [List.map_cons, List.map_cons, hc, List.filterMap_cons, hhr,
        List.map_cons, ih (fun c' hc' => h c' (List.mem_cons_of_mem _ hc'))]
  have h3 : (harmonize_requirements O reqs).clusters.map
      (fun c => c.harmonized_requirement)
      = (harmonize_requirements O reqs).harmonized_requirements.map some :=
    hpair _ hne
  have hlen2 : (harmonize_requirements O reqs).clusters.length
      = (harmonize_requirements O reqs).harmonized_requirements.length := by
    have := congrArg List.length h3
    simpa using this
  refine ⟨hlen2, hlen2, h3, ?_⟩
  intro hne'
  show (if 0 < reqs.length
      then (((cluster_requirements O reqs).filterMap
        (fun c => create_harmonized_requirement c.requirements)).length : Rat)
          / (reqs.length : Rat)
      else 0) = _
  rw [if_pos (List.length_pos.mpr hne')]
  rfl

/-- Claim C8 (witness): the report-invariant theorem's ratio clause at
concrete input. -/
theorem C8_report_witness :
    ([reqA] : List ComplianceRequirement) ≠ [] ∧
    (harmonize_requirements Owf [reqA]).harmonization_ratio
      = ((harmonize_requirements Owf [reqA]).harmonized_requirements.length : Rat)
          / (([reqA] : List ComplianceRequirement).length : Rat) :=
  ⟨by decide, (C8_report_invariants Owf [reqA]).2.2.2 (by decide)⟩

/-! ### Claim C9 -/

theorem level_max_spec (reqs : List ComplianceRequirement)
    (f : ComplianceRequirement → Option String) (hne : reqs ≠ [])
    (hv : ∀ m ∈ reqs, f m = some "Low" ∨ f m = some "Medium" ∨ f m = some "High") :
    (∃ m ∈ reqs, some (max_priority_level (truthyStrings (reqs.map f))) = f m) ∧
    (∀ m ∈ reqs, ∀ s, f m = some s →
      risk_priority s ≤ risk_priority (max_priority_level (truthyStrings (reqs.map f)))) := by
  have hmemL : ∀ m ∈ reqs, ∀ s, f m = some s → s ∈ truthyStrings (reqs.map f) := by
    intro m hm s hs
    have hne' : s ≠ "" := by
      rcases hv m hm with h | h | h <;> rw [hs] at h <;> injection h with h <;>
        rw [h] <;> decide
    exact mem_truthyStrings.mpr ⟨List.mem_map.mpr ⟨m, hm, hs⟩, hne'⟩
  have hLne : truthyStrings (reqs.map f) ≠ [] := by
    match reqs, hne with
    | m :: rest, _ =>
      rcases hv m (List.mem_cons_self _ _) with h | h | h
      all_goals
        intro hLnil
        have hmem := hmemL m (List.mem_cons_self _ _) _ h
        rw [hLnil] at hmem
        exact List.not_mem_nil _ hmem
  obtain ⟨hmem, hdom⟩ := max_priority_level_spec (truthyStrings (reqs.map f)) hLne
  constructor
  · obtain ⟨hinmap, -⟩ := mem_truthyStrings.mp hmem
    obtain ⟨m, hm, hfm⟩ := List.mem_map.mp hinmap
    exact ⟨m, hm, hfm.symm⟩
  · intro m hm s hs
    exact hdom s (hmemL m hm s hs)

/-- Conclusion of claim C9: the harmonized risk level and business impact are
each some member's value, and dominate every member's value under the priority
ordering `Low < Medium < High`. -/
def SeveritySpec (reqs : List ComplianceRequirement) : Prop :=
  ∃ hr, create_harmonized_requirement reqs = some hr ∧
    (∃ m ∈ reqs, hr.risk_level = m.risk_level) ∧
    (∀ m ∈ reqs, ∀ s t, m.risk_level = some s → hr.risk_level = some t →
      risk_priority s ≤ risk_priority t) ∧
    (∃ m ∈ reqs, hr.business_impact = m.business_impact) ∧
    (∀ m ∈ reqs, ∀ s t, m.business_impact = some s → hr.business_impact = some t →
      risk_priority s ≤ risk_priority t)

/-- Claim C9 (confirmed): for clusters of at least two members whose risk
levels and business impacts are all among `Low`, `Medium`, `High`, the
harmonized values are the members' maxima under `Low < Medium < High` —
severity never decreases. -/
theorem C9_monotonic_severity (reqs : List ComplianceRequirement)
    (h2 : 2 ≤ reqs.length)
    (hrv : ∀ m ∈ reqs, m.risk_level = some "Low" ∨ m.risk_level = some "Medium"
      ∨ m.risk_level = some "High")
    (hbv : ∀ m ∈ reqs, m.business_impact = some "Low"
      ∨ m.business_impact = some "Medium" ∨ m.business_impact = some "High") :
    SeveritySpec reqs := by
  match reqs, h2 with
  | r0 :: r1 :: rest, _ =>
    have hne : (r0 :: r1 :: rest) ≠ [] := List.cons_ne_nil _ _
    obtain ⟨⟨m1, hm1, he1⟩, hdom1⟩ :=
      level_max_spec (r0 :: r1 :: rest) (fun r => r.risk_level) hne hrv
    obtain ⟨⟨m2, hm2, he2⟩, hdom2⟩ :=
      level_max_spec (r0 :: r1 :: rest) (fun r => r.business_impact) hne hbv
    have hrisk : (merge_cluster (r0 :: r1 :: rest)).risk_level
        = some (max_priority_level (truthyStrings ((r0 :: r1 :: rest).map
            (fun r => r.risk_level)))) := rfl
    have himp : (merge_cluster (r0 :: r1 :: rest)).business_impact
        = some (max_priority_level (truthyStrings ((r0 :: r1 :: rest).map
            (fun r => r.business_impact)))) := rfl
    refine ⟨merge_cluster (r0 :: r1 :: rest), rfl,
      ⟨m1, hm1, by rw [hrisk]; exact he1⟩, ?_,
      ⟨m2, hm2, by rw [himp]; exact he2⟩, ?_⟩
    · intro m hm s t hs ht
      rw [hrisk] at ht
      injection ht with ht
      rw [← ht]
      exact hdom1 m hm s hs
    · intro m hm s t hs ht
      rw [himp] at ht
      injection ht with ht
      rw [← ht]
      exact hdom2 m hm s hs

def sevReqA : ComplianceRequirement :=
  { mkReq "P1" "A1" "R1" "T1" with
      risk_level := some "Low", business_impact := some "High" }

def sevReqB : ComplianceRequirement :=
  { mkReq "P2" "A2" "R2" "T2" with
      risk_level := some "High", business_impact := some "Medium" }

/-- Claim C9 (witness): the severity theorem at concrete input. -/
theorem C9_severity_witness :
    2 ≤ ([sevReqA, sevReqB] : List ComplianceRequirement).length ∧
    SeveritySpec [sevReqA, sevReqB] :=
  ⟨by decide,
   C9_monotonic_severity [sevReqA, sevReqB] (by decide) (by decide) (by decide)⟩

/-! ### Claim C10 -/

theorem unique_controls_ids_nodup (cs : List MappedControl) :
    ((unique_controls cs).map (fun c => c.control_id)).Nodup := by
  have h1 : (unique_controls cs).map (fun c => c.control_id)
      = (buildControlDict cs).map Prod.fst := by
    unfold unique_controls
    rw [List.map_map]
    exact List.map_congr_left (fun e he => buildControlDict_entries cs e he)
  rw [h1]
  exact buildControlDict_keys_nodup cs

theorem unique_controls_last (cs : List MappedControl) :
    ∀ c ∈ unique_controls cs,
      (cs.filter (fun x => x.control_id = c.control_id)).getLast? = some c := by
  intro c hc
  obtain ⟨e, he, he2⟩ := List.mem_map.mp hc
  have hkey := buildControlDict_entries cs e he
  have hlook := lookup_of_mem_nodup _ (buildControlDict_keys_nodup cs) e he
  rw [buildControlDict_lookup] at hlook
  rw [← he2, hkey]
  exact hlook

theorem unique_controls_sub (cs : List MappedControl) :
    ∀ c ∈ unique_controls cs, c ∈ cs := by
  intro c hc
  have := unique_controls_last cs c hc
  exact List.mem_of_mem_filter (List.mem_of_mem_getLast? this)

theorem unique_controls_complete (cs : List MappedControl) :
    ∀ c ∈ cs, ∃ c' ∈ unique_controls cs, c'.control_id = c.control_id := by
  intro c hc
  have hfil : c ∈ cs.filter (fun x => x.control_id = c.control_id) :=
    List.mem_filter.mpr ⟨hc, by simp⟩
  have hfne : cs.filter (fun x => x.control_id = c.control_id) ≠ [] := by
    intro h
    rw [h] at hfil
    exact List.not_mem_nil _ hfil
  obtain ⟨v, hv⟩ := Option.isSome_iff_exists.mp (List.getLast?_isSome.mpr hfne)
  have hlook : lookupControl (buildControlDict cs) c.control_id = some v := by
    rw [buildControlDict_lookup]
    exact hv
  have hventry : (c.control_id, v) ∈ buildControlDict cs := lookup_mem _ _ _ hlook
  refine ⟨v, List.mem_map.mpr ⟨(c.control_id, v), hventry, rfl⟩, ?_⟩
  exact buildControlDict_entries cs _ hventry

/-- Conclusion of claim C10: the harmonized `mapped_controls` carry pairwise
distinct control ids, are drawn from the concatenation of all members'
controls, cover every control id occurring there, and for each id the control
kept is the last-encountered one in member order. -/
def ControlsSpec (reqs : List ComplianceRequirement) : Prop :=
  ∃ hr, create_harmonized_requirement reqs = some hr ∧
    ((hr.mapped_controls.map (fun c => c.control_id)).Nodup ∧
     (∀ c ∈ hr.mapped_controls, c ∈ reqs.flatMap (fun r => r.mapped_controls)) ∧
     (∀ c ∈ reqs.flatMap (fun r => r.mapped_controls),
       ∃ c' ∈ hr.mapped_controls, c'.control_id = c.control_id) ∧
     (∀ c ∈ hr.mapped_controls,
       ((reqs.flatMap (fun r => r.mapped_controls)).filter
         (fun x => x.control_id = c.control_id)).getLast? = some c))

/-- Claim C10 (confirmed): control de-duplication keeps, for every control id
occurring among the members, exactly one control — the one last encountered in
member order. -/
theorem C10_controls_last_wins (reqs : List ComplianceRequirement)
    (h2 : 2 ≤ reqs.length) : ControlsSpec reqs := by
  match reqs, h2 with
  | r0 :: r1 :: rest, _ =>
    have hmc : (merge_cluster (r0 :: r1 :: rest)).mapped_controls
        = unique_controls ((r0 :: r1 :: rest).flatMap
            (fun r => r.mapped_controls)) := rfl
    refine ⟨merge_cluster (r0 :: r1 :: rest), rfl, ?_, ?_, ?_, ?_⟩
    · rw [hmc]
      exact unique_controls_ids_nodup _
    · rw [hmc]
      exact unique_controls_sub _
    · rw [hmc]
      exact unique_controls_complete _
    · rw [hmc]
      exact unique_controls_last _

def ctlX1 : MappedControl :=
  { control_id := "X", category := "DISCLOSURE", status := "PENDING" }

def ctlY : MappedControl :=
  { control_id := "Y", category := "GOVERNANCE", status := "PENDING" }

def ctlX2 : MappedControl :=
  { control_id := "X", category := "DISCLOSURE", status := "IMPLEMENTED" }

def ctlReqA : ComplianceRequirement :=
  { mkReq "P1" "A1" "R1" "T1" with mapped_controls := [ctlX1, ctlY] }

def ctlReqB : ComplianceRequirement :=
  { mkReq "P2" "A2" "R2" "T2" with mapped_controls := [ctlX2] }

/-- Claim C10 (witness): the control-dedup theorem at concrete input, where two
controls share id `X` and the later one (status `IMPLEMENTED`) survives. -/
theorem C10_controls_witness :
    2 ≤ ([ctlReqA, ctlReqB] : List ComplianceRequirement).length ∧
    ControlsSpec [ctlReqA, ctlReqB] ∧
    (create_harmonized_requirement [ctlReqA, ctlReqB]).map
      (fun h => h.mapped_controls) = some [ctlX2, ctlY] :=
  ⟨by decide, C10_controls_last_wins [ctlReqA, ctlReqB] (by decide), by decide⟩

end SecCompliance
